import Mathlib

/-!
Verification of the Cheerio performance-optimization module: selector,
traversal, attribute and text caches, the fast-path selector classifier and
tree searches, and the wrapper object pool. The definitions below are a
shallow embedding of the TypeScript source; machine arithmetic is modelled
on `Int` with explicit 32-bit truncation where the source truncates.
-/

namespace CheerioOpt

/-- JS `ToInt32`: truncation of an exact integer to a signed 32-bit value. -/
def toInt32 (n : Int) : Int :=
  ((n + 2147483648) % 4294967296) - 2147483648

/-- JS `s.charCodeAt(0)` for a Lean string: the first UTF-16 code unit, or
`none` for the empty string (where JS yields `NaN`). A first code point at or
above `0x10000` yields its high surrogate. -/
def charCodeAt0 (s : String) : Option Nat :=
  match s.data with
  | [] => none
  | c :: _ =>
    some (if c.toNat < 65536 then c.toNat else 55296 + (c.toNat - 65536) / 1024)

/-- The JS `\s` / `trim` whitespace class (WhiteSpace and LineTerminator). -/
def isJsWhitespace (c : Char) : Bool :=
  c = ' ' || c = '\t' || c = '\n' || c = '\r' || c.toNat = 11 || c.toNat = 12 ||
  c.toNat = 160 || c.toNat = 5760 || (8192 ≤ c.toNat && c.toNat ≤ 8202) ||
  c.toNat = 8232 || c.toNat = 8233 || c.toNat = 8239 || c.toNat = 8287 ||
  c.toNat = 12288 || c.toNat = 65279

/-- JS `String.prototype.trim` on a character list. -/
def jsTrimList (l : List Char) : List Char :=
  ((l.dropWhile isJsWhitespace).reverse.dropWhile isJsWhitespace).reverse

/-- JS `String.prototype.trim`. -/
def jsTrim (s : String) : String :=
  String.mk (jsTrimList s.data)

/-- Worker for JS `s.split(/\s+/)`: `cur` is the reversed current token and
`inWs` records whether the scan is inside a whitespace run whose preceding
token has already been emitted (a maximal run is a single separator). -/
def splitWsAux : Bool → List Char → List Char → List String
  | _, [], cur => [String.mk cur.reverse]
  | inWs, c :: cs, cur =>
    if isJsWhitespace c then
      if inWs then splitWsAux true cs cur
      else String.mk cur.reverse :: splitWsAux true cs []
    else splitWsAux false cs (c :: cur)

/-- JS `s.split(/\s+/)`: splits on maximal nonempty whitespace runs; a leading
or trailing run yields an empty token, and `""` splits to `[""]`. -/
def splitWs (s : String) : List String :=
  splitWsAux false s.data []

/-- The `domhandler` node tree, tagged with a `nid` standing for JS reference
identity. `element` is the only tag-type kind (`isTag`); `directive` (doctype
and processing instructions) carries a `name` like elements do, the other
kinds have no `name`. -/
inductive DomNode : Type where
  | element (nid : Nat) (name : String) (attribs : List (String × String))
      (children : List DomNode)
  | text (nid : Nat) (data : String)
  | comment (nid : Nat) (data : String)
  | directive (nid : Nat) (name : String) (data : String)
  | cdata (nid : Nat) (children : List DomNode)

/-- Reference identity of a node. -/
def DomNode.nid : DomNode → Nat
  | .element n _ _ _ => n
  | .text n _ => n
  | .comment n _ => n
  | .directive n _ _ => n
  | .cdata n _ => n

/-- JS `(node as any).name?.charCodeAt(0)`: `none` models the `undefined`
(no `name` property) and `NaN` (empty name) outcomes. -/
def DomNode.nameCode0 : DomNode → Option Nat
  | .element _ nm _ _ => charCodeAt0 nm
  | .directive _ nm _ => charCodeAt0 nm
  | _ => none

/-- JS `v || 0` on a number that is either an exact integer or `NaN`
(modelled as `none`): `NaN` and `0` are falsy. -/
def jsOrZero : Option Int → Int
  | none => 0
  | some x => if x = 0 then 0 else x

/-- One iteration of the `hashChildren` loop, mirroring the JS expression
`hash = (hash * 31 + (children[i] as any).name?.charCodeAt(0) || 0) | 0`
with its actual precedence `((hash * 31 + code) || 0) | 0`. -/
def hashChildStep (hash : Int) (child : DomNode) : Int :=
  toInt32 (jsOrZero
    (Option.map (fun c : Nat => hash * 31 + (c : Int)) child.nameCode0))

/-- `hashChildren` from the source: `0` for an absent or empty children
sequence, else a fold of `hashChildStep` over the first 10 children seeded
with the child count. -/
def hashChildren : Option (List DomNode) → Int
  | none => 0
  | some children =>
    if children.length = 0 then 0
    else (children.take 10).foldl hashChildStep (children.length : Int)

/-- Modelled from the claim's words (comparand only): the structural
discriminator `d` — first-character code point of the tag name for
element-type children, `0` for every other child kind. -/
def claimDiscriminator : DomNode → Int
  | .element _ nm _ _ =>
    match nm.data with
    | [] => 0
    | c :: _ => (c.toNat : Int)
  | _ => 0

/-- Modelled from the claim's words (comparand only): the fingerprint as the
claim describes it, folding `hash = toInt32 (hash * 31 + d)`. -/
def claimHashChildren : Option (List DomNode) → Int
  | none => 0
  | some children =>
    if children.length = 0 then 0
    else
      (children.take 10).foldl
        (fun h c => toInt32 (h * 31 + claimDiscriminator c))
        (children.length : Int)

/-- The amended description of one fold step: a child that has a nonempty
`name` (an element or a directive) folds its first UTF-16 code unit as
`toInt32 (hash * 31 + code)`; any other child resets the running hash to `0`
(the `NaN` produced by the missing char code is coerced to `0` by `|| 0`,
discarding the accumulated prefix). -/
def amendedHashStep (hash : Int) (child : DomNode) : Int :=
  match child.nameCode0 with
  | some code => toInt32 (hash * 31 + (code : Int))
  | none => 0

/-- The amended fingerprint description: `0` for absent or empty children,
else a fold of `amendedHashStep` over the first 10 children seeded with the
child count. -/
def amendedHashChildren : Option (List DomNode) → Int
  | none => 0
  | some children =>
    if children.length = 0 then 0
    else (children.take 10).foldl amendedHashStep (children.length : Int)

/-- `isTag` from `domhandler`: true exactly for element nodes. -/
def DomNode.isTag : DomNode → Bool
  | .element _ _ _ _ => true
  | _ => false

/-- A stored text-cache record: the cached text and the children fingerprint
taken when it was stored. -/
structure TextCacheEntry where
  text : String
  childrenHash : Int

/-- The `textCache` WeakMap, keyed by node identity. -/
def TextCache : Type := Nat → Option TextCacheEntry

/-- A text cache with no entries. -/
def emptyTextCache : TextCache := fun _ => none

/-- `setCachedText`: stores the text together with the fingerprint of the
node's current children. `children` is the node's current children sequence
(absent when the node has no `children` property). -/
def setCachedText (cache : TextCache) (node : Nat)
    (children : Option (List DomNode)) (t : String) : TextCache :=
  fun m => if m = node then some ⟨t, hashChildren children⟩ else cache m

/-- `getCachedText`: returns the cached text only when the stored fingerprint
matches the fingerprint of the node's current children; on a mismatch it
deletes the entry. Returns the read result and the updated cache. -/
def getCachedText (cache : TextCache) (node : Nat)
    (children : Option (List DomNode)) : Option String × TextCache :=
  match cache node with
  | none => (none, cache)
  | some entry =>
    if entry.childrenHash ≠ hashChildren children then
      (none, fun m => if m = node then none else cache m)
    else
      (some entry.text, cache)

/-- The `selectorCache` WeakMap: context identity to a map from selector
strings to element lists. -/
def SelectorCache : Type := Nat → Option (List (String × List DomNode))

/-- `getCachedSelector`: the stored result list for a context and selector,
if any. -/
def getCachedSelector (cache : SelectorCache) (context : Nat)
    (selector : String) : Option (List DomNode) :=
  match cache context with
  | none => none
  | some m => m.lookup selector

/-- `clearSelectorCache` from the source: its body is empty (WeakMaps cannot
be cleared), so the cache state is returned unchanged. -/
def clearSelectorCache (cache : SelectorCache) : SelectorCache := cache

/-- A per-node traversal-cache record. Each slot is outer-optional (absent
means "not yet cached"); the inner option models `Element | null`. -/
structure TraversalEntry where
  parent : Option (Option DomNode) := none
  nextSibling : Option (Option DomNode) := none
  prevSibling : Option (Option DomNode) := none
  children : Option (List DomNode) := none

/-- The `traversalCache` WeakMap, keyed by node identity. -/
def TraversalCache : Type := Nat → Option TraversalEntry

/-- The fresh record `{}` created on a node's first traversal-cache write. -/
def emptyTraversalEntry : TraversalEntry := {}

/-- `getCachedParent`: `traversalCache.get(node)?.parent`. -/
def getCachedParent (cache : TraversalCache) (node : Nat) :
    Option (Option DomNode) :=
  match cache node with
  | none => none
  | some e => e.parent

/-- `setCachedParent`: read-modify-write of the node's record, setting only
the `parent` slot. -/
def setCachedParent (cache : TraversalCache) (node : Nat)
    (parent : Option DomNode) : TraversalCache :=
  let e := match cache node with
    | some e => e
    | none => emptyTraversalEntry
  fun m => if m = node then some { e with parent := some parent } else cache m

/-- `getCachedNextSibling`: `traversalCache.get(node)?.nextSibling`. -/
def getCachedNextSibling (cache : TraversalCache) (node : Nat) :
    Option (Option DomNode) :=
  match cache node with
  | none => none
  | some e => e.nextSibling

/-- `setCachedNextSibling`: read-modify-write setting only `nextSibling`. -/
def setCachedNextSibling (cache : TraversalCache) (node : Nat)
    (sibling : Option DomNode) : TraversalCache :=
  let e := match cache node with
    | some e => e
    | none => emptyTraversalEntry
  fun m =>
    if m = node then some { e with nextSibling := some sibling } else cache m

/-- `getCachedPrevSibling`: `traversalCache.get(node)?.prevSibling`. -/
def getCachedPrevSibling (cache : TraversalCache) (node : Nat) :
    Option (Option DomNode) :=
  match cache node with
  | none => none
  | some e => e.prevSibling

/-- `setCachedPrevSibling`: read-modify-write setting only `prevSibling`. -/
def setCachedPrevSibling (cache : TraversalCache) (node : Nat)
    (sibling : Option DomNode) : TraversalCache :=
  let e := match cache node with
    | some e => e
    | none => emptyTraversalEntry
  fun m =>
    if m = node then some { e with prevSibling := some sibling } else cache m

/-- `getCachedChildren`: `traversalCache.get(node)?.children`. -/
def getCachedChildren (cache : TraversalCache) (node : Nat) :
    Option (List DomNode) :=
  match cache node with
  | none => none
  | some e => e.children

/-- `setCachedChildren`: read-modify-write setting only `children`. -/
def setCachedChildren (cache : TraversalCache) (node : Nat)
    (children : List DomNode) : TraversalCache :=
  let e := match cache node with
    | some e => e
    | none => emptyTraversalEntry
  fun m =>
    if m = node then some { e with children := some children } else cache m

/-- A per-element attribute map; a stored `none` models a cached
`undefined` ("attribute absent"), distinct from the key being missing. -/
def AttrMap : Type := List (String × Option String)

/-- The `attributeCache` WeakMap, keyed by element identity. -/
def AttrCache : Type := Nat → Option AttrMap

/-- JS `Map.prototype.set`: replace the value at an existing key in place,
else append the new binding. -/
def mapSet (m : AttrMap) (k : String) (v : Option String) : AttrMap :=
  match m with
  | [] => [(k, v)]
  | (k0, v0) :: rest =>
    if k0 = k then (k0, v) :: rest else (k0, v0) :: mapSet rest k v

/-- `getCachedAttribute`: `attributeCache.get(elem)?.get(name)` — `none` both
when nothing is cached and when `undefined` was cached. -/
def getCachedAttribute (cache : AttrCache) (elem : Nat) (name : String) :
    Option String :=
  match cache elem with
  | none => none
  | some m =>
    match m.lookup name with
    | some v => v
    | none => none

/-- `hasAttributeCache`: whether the per-element map has the key at all. -/
def hasAttributeCache (cache : AttrCache) (elem : Nat) (name : String) :
    Bool :=
  match cache elem with
  | none => false
  | some m => (m.lookup name).isSome

/-- `setCachedAttribute`: creates the per-element map on first use, then
stores the value (possibly `undefined`) under the name. -/
def setCachedAttribute (cache : AttrCache) (elem : Nat) (name : String)
    (value : Option String) : AttrCache :=
  let m := match cache elem with
    | some m => m
    | none => []
  fun e => if e = elem then some (mapSet m name value) else cache e

/-- `invalidateAttributeCache`: drops the element's whole map. -/
def invalidateAttributeCache (cache : AttrCache) (elem : Nat) : AttrCache :=
  fun e => if e = elem then none else cache e

/-- A character of the JS character class `[\w-]`. -/
def isSelectorChar (c : Char) : Bool :=
  c.isAlpha || c.isDigit || c = '_' || c = '-'

/-- The regex `/^#[\w-]+$/` on the trimmed characters. -/
def matchesIdPattern : List Char → Bool
  | [] => false
  | c :: rest => c == '#' && !rest.isEmpty && rest.all isSelectorChar

/-- The regex `/^\.[\w-]+$/` on the trimmed characters. -/
def matchesClassPattern : List Char → Bool
  | [] => false
  | c :: rest => c == '.' && !rest.isEmpty && rest.all isSelectorChar

/-- The regex `/^[\w-]+$/` on the trimmed characters. -/
def matchesTagPattern (l : List Char) : Bool :=
  !l.isEmpty && l.all isSelectorChar

/-- The four selector classifications. -/
inductive SelType : Type where
  | idSel
  | classSel
  | tagSel
  | complexSel
deriving Repr, DecidableEq

/-- The result record of `parseSimpleSelector`. -/
structure SimpleSelectorInfo where
  type : SelType
  value : Option String
deriving Repr, DecidableEq

/-- `parseSimpleSelector` from the source: trim, then test the three
regexes in order, falling through to `complex`. -/
def parseSimpleSelector (selector : String) : SimpleSelectorInfo :=
  let trimmed := jsTrim selector
  if matchesIdPattern trimmed.data then
    ⟨.idSel, some (String.mk trimmed.data.tail)⟩
  else if matchesClassPattern trimmed.data then
    ⟨.classSel, some (String.mk trimmed.data.tail)⟩
  else if matchesTagPattern trimmed.data then
    ⟨.tagSel, some trimmed⟩
  else
    ⟨.complexSel, none⟩

/-- Modelled from the claim's words (comparand only): classification of the
trimmed selector by the first applicable rule, stated through head, length
and a universally quantified character condition. -/
def claimClassify (selector : String) : SimpleSelectorInfo :=
  let t := jsTrim selector
  if t.data.head? = some '#' ∧ t.data.tail ≠ [] ∧
      ∀ c ∈ t.data.tail, isSelectorChar c then
    ⟨.idSel, some (String.mk t.data.tail)⟩
  else if t.data.head? = some '.' ∧ t.data.tail ≠ [] ∧
      ∀ c ∈ t.data.tail, isSelectorChar c then
    ⟨.classSel, some (String.mk t.data.tail)⟩
  else if t.data ≠ [] ∧ ∀ c ∈ t.data, isSelectorChar c then
    ⟨.tagSel, some t⟩
  else
    ⟨.complexSel, none⟩

mutual

/-- The pre-order tag-type nodes a single visited node contributes: an
element node followed by the walk of its children; a non-tag node
contributes nothing and its children are not entered. -/
def preorderTagsNode : DomNode → List DomNode
  | .element nid nm ats ch =>
    .element nid nm ats ch :: preorderTags ch
  | _ => []

/-- The pre-order sequence of tag-type nodes visited by the fast-path
searches over a node sequence: each node's contribution in order. -/
def preorderTags : List DomNode → List DomNode
  | [] => []
  | n :: rest => preorderTagsNode n ++ preorderTags rest

end

/-- The mutable search state of the fast-path searches: the `results` array
and the `seen` set (of node identities). -/
structure FindState where
  results : List DomNode
  seen : List Nat

/-- The `id` attribute of a node, `none` for non-elements. -/
def DomNode.idAttr : DomNode → Option String
  | .element _ _ ats _ => ats.lookup "id"
  | _ => none

mutual

/-- The body of the `fastFindById` loop for one node: a tag node is checked
against the target id (pushing it and aborting on a match) and its children
are searched; any other node is skipped. Returns the updated state and
whether a match was found (which aborts the whole walk). -/
def findByIdNode (idv : String) : DomNode → FindState → FindState × Bool
  | .element nid nm ats ch, st =>
    if (ats.lookup "id" == some idv) && !(st.seen.contains nid) then
      (⟨st.results ++ [.element nid nm ats ch], nid :: st.seen⟩, true)
    else findByIdGo idv ch st
  | _, st => (st, false)

/-- The recursive worker of `fastFindById` over a node sequence: handles
each node in order, stopping as soon as one reports a match. -/
def findByIdGo (idv : String) : List DomNode → FindState → FindState × Bool
  | [], st => (st, false)
  | n :: rest, st =>
    match findByIdNode idv n st with
    | (st2, true) => (st2, true)
    | (st2, false) => findByIdGo idv rest st2

end

/-- `fastFindById` from the source. -/
def fastFindById (root : List DomNode) (idv : String) : List DomNode :=
  (findByIdGo idv root ⟨[], []⟩).1.results

/-- The class list the source computes:
`node.attribs?.['class']?.split(/\s+/) || []`. -/
def classAttrList (ats : List (String × String)) : List String :=
  match ats.lookup "class" with
  | some s => splitWs s
  | none => []

/-- The class list of a node, empty for non-elements. -/
def DomNode.classList : DomNode → List String
  | .element _ _ ats _ => classAttrList ats
  | _ => []

mutual

/-- The body of the `fastFindByClass` loop for one node: a tag node whose
class list contains the target (and that is not in the seen set) is pushed,
then its children are walked; any other node is skipped. -/
def findByClassNode (cls : String) : DomNode → FindState → FindState
  | .element nid nm ats ch, st =>
    findByClassGo cls ch
      (if (classAttrList ats).contains cls && !(st.seen.contains nid) then
        (⟨st.results ++ [.element nid nm ats ch], nid :: st.seen⟩ : FindState)
      else st)
  | _, st => st

/-- The recursive worker of `fastFindByClass` over a node sequence: handles
each node in order, threading the state. -/
def findByClassGo (cls : String) : List DomNode → FindState → FindState
  | [], st => st
  | n :: rest, st => findByClassGo cls rest (findByClassNode cls n st)

end

/-- `fastFindByClass` from the source. -/
def fastFindByClass (root : List DomNode) (cls : String) : List DomNode :=
  (findByClassGo cls root ⟨[], []⟩).results

/-- First-match deduplication by node identity against an already-seen set:
the reference behaviour of a seen-set guarded collection. -/
def dedupNew (seen : List Nat) : List DomNode → List DomNode
  | [] => []
  | n :: rest =>
    if seen.contains n.nid then dedupNew seen rest
    else n :: dedupNew (n.nid :: seen) rest

/-- Fold the identities of the given nodes onto a seen set, most recent
first. -/
def pushNids (l : List DomNode) (seen : List Nat) : List Nat :=
  l.foldl (fun s n => n.nid :: s) seen

/-- The wrapper object pool: a stack of spare instances (head is the top)
and the capacity bound. -/
structure WrapperPool (T : Type) where
  pool : List T
  maxSize : Nat

/-- `createWrapperPool factory maxSize` starts with an empty stack. -/
def createWrapperPool (T : Type) (maxSize : Nat) : WrapperPool T :=
  ⟨[], maxSize⟩

/-- `acquire`, mirroring `this.pool.pop() || this.factory()`: `pop` removes
the top unconditionally; `||` hands the popped value on only when it is
truthy, otherwise the factory runs. `falsy` is the JS truthiness test of the
element type. Returns the value handed to the caller, the new pool, and
whether the factory was invoked. -/
def WrapperPool.acquire {T : Type} (falsy : T → Bool) (factory : Unit → T)
    (p : WrapperPool T) : T × WrapperPool T × Bool :=
  match p.pool with
  | [] => (factory (), p, true)
  | x :: rest =>
    if falsy x then (factory (), ⟨rest, p.maxSize⟩, true)
    else (x, ⟨rest, p.maxSize⟩, false)

/-- `release`: push the object only when strictly below capacity. -/
def WrapperPool.release {T : Type} (p : WrapperPool T) (obj : T) :
    WrapperPool T :=
  if p.pool.length < p.maxSize then ⟨obj :: p.pool, p.maxSize⟩ else p

/-- `clear`: drop all pooled instances. -/
def WrapperPool.clear {T : Type} (p : WrapperPool T) : WrapperPool T :=
  ⟨[], p.maxSize⟩

/-- One client operation on a pool. -/
inductive PoolOp (T : Type) : Type where
  | acquireOp
  | releaseOp (obj : T)
  | clearOp

/-- Run a sequence of pool operations, discarding acquired values. -/
def runPoolOps {T : Type} (falsy : T → Bool) (factory : Unit → T) :
    List (PoolOp T) → WrapperPool T → WrapperPool T
  | [], p => p
  | op :: ops, p =>
    runPoolOps falsy factory ops
      (match op with
       | .acquireOp => (WrapperPool.acquire falsy factory p).2.1
       | .releaseOp obj => p.release obj
       | .clearOp => p.clear)

theorem lookup_mapSet (m : AttrMap) (k : String) (v : Option String) :
    (mapSet m k v).lookup k = some v := by
  induction m with
  | nil => simp [mapSet, List.lookup]
  | cons kv rest ih =>
    obtain ⟨k0, v0⟩ := kv
    by_cases h : k0 = k
    · subst h
      simp [mapSet, List.lookup]
    · simp only [mapSet, if_neg h, List.lookup]
      have : (k == k0) = false := by
        simp [Ne.symm h]
      simp [this, ih]

/-- C9: `clearSelectorCache` is a no-op on observable selector-cache state:
any `getCachedSelector` read after the call returns exactly what it would
have returned before it. -/
theorem clearSelectorCache_noop (cache : SelectorCache) (context : Nat)
    (selector : String) :
    getCachedSelector (clearSelectorCache cache) context selector =
      getCachedSelector cache context selector := rfl

/-- C7: after `setCachedAttribute`, `getCachedAttribute` returns exactly the
stored value — including a cached `undefined` (`none`) — and
`hasAttributeCache` reports `true`; presence of the key, not the value,
distinguishes "cached as absent" from "not cached". -/
theorem setCachedAttribute_roundtrip (cache : AttrCache) (elem : Nat)
    (name : String) (value : Option String) :
    getCachedAttribute (setCachedAttribute cache elem name value) elem name =
      value ∧
    hasAttributeCache (setCachedAttribute cache elem name value) elem name =
      true := by
  unfold getCachedAttribute hasAttributeCache setCachedAttribute
  cases h : cache elem <;> simp [h, lookup_mapSet]

/-- C2: immediately after `setCachedText`, a `getCachedText` whose current
children fingerprint equals the stored one returns the stored text; a
`getCachedText` that finds an entry with a mismatched fingerprint deletes
the entry and returns `none`, and every subsequent read returns `none` until
the text is cached again. -/
theorem textCache_self_healing (cache : TextCache) (node : Nat)
    (ch ch2 : Option (List DomNode)) (t : String) :
    (hashChildren ch2 = hashChildren ch →
      (getCachedText (setCachedText cache node ch t) node ch2).1 = some t) ∧
    (∀ e : TextCacheEntry, cache node = some e →
      e.childrenHash ≠ hashChildren ch →
      (getCachedText cache node ch).1 = none ∧
      (getCachedText cache node ch).2 node = none ∧
      ∀ ch3, (getCachedText ((getCachedText cache node ch).2) node ch3).1 =
        none) := by
  constructor
  · intro h
    simp [getCachedText, setCachedText, h]
  · intro e he hne
    refine ⟨?_, ?_, ?_⟩
    · simp [getCachedText, he, hne]
    · simp [getCachedText, he, hne]
    · intro ch3
      simp [getCachedText, he, hne]

/-- Witness for C2 at the spec's concrete example: children `[c1, c2]`,
cached text `"X"`, then the children change to `[c1, c2, c3]`. -/
theorem textCache_self_healing_witness :
    (getCachedText
      (setCachedText emptyTextCache 0
        (some [DomNode.element 1 "a" [] [], DomNode.element 2 "b" [] []]) "X")
      0
      (some [DomNode.element 1 "a" [] [], DomNode.element 2 "b" [] []])).1 =
      some "X" ∧
    (getCachedText
      (setCachedText emptyTextCache 0
        (some [DomNode.element 1 "a" [] [], DomNode.element 2 "b" [] []]) "X")
      0
      (some [DomNode.element 1 "a" [] [], DomNode.element 2 "b" [] [],
        DomNode.element 3 "c" [] []])).1 = none := by
  constructor
  · exact (textCache_self_healing emptyTextCache 0
      (some [DomNode.element 1 "a" [] [], DomNode.element 2 "b" [] []])
      (some [DomNode.element 1 "a" [] [], DomNode.element 2 "b" [] []])
      "X").1 rfl
  · exact ((textCache_self_healing
      (setCachedText emptyTextCache 0
        (some [DomNode.element 1 "a" [] [], DomNode.element 2 "b" [] []]) "X")
      0
      (some [DomNode.element 1 "a" [] [], DomNode.element 2 "b" [] [],
        DomNode.element 3 "c" [] []])
      (some [DomNode.element 1 "a" [] [], DomNode.element 2 "b" [] []])
      "X").2
      ⟨"X", hashChildren (some [DomNode.element 1 "a" [] [],
        DomNode.element 2 "b" [] []])⟩
      rfl (by decide)).1

/-- C8: each traversal-cache setter changes only its own slot of the target
node — the other three slots keep their exact cached status (absent, `null`,
or a value) — and the traversal-cache entries of all other nodes are
untouched. -/
theorem traversalSetters_frame (cache : TraversalCache) (node : Nat)
    (v : Option DomNode) (ch : List DomNode) :
    (getCachedNextSibling (setCachedParent cache node v) node =
        getCachedNextSibling cache node ∧
      getCachedPrevSibling (setCachedParent cache node v) node =
        getCachedPrevSibling cache node ∧
      getCachedChildren (setCachedParent cache node v) node =
        getCachedChildren cache node ∧
      ∀ m, m ≠ node → setCachedParent cache node v m = cache m) ∧
    (getCachedParent (setCachedNextSibling cache node v) node =
        getCachedParent cache node ∧
      getCachedPrevSibling (setCachedNextSibling cache node v) node =
        getCachedPrevSibling cache node ∧
      getCachedChildren (setCachedNextSibling cache node v) node =
        getCachedChildren cache node ∧
      ∀ m, m ≠ node → setCachedNextSibling cache node v m = cache m) ∧
    (getCachedParent (setCachedPrevSibling cache node v) node =
        getCachedParent cache node ∧
      getCachedNextSibling (setCachedPrevSibling cache node v) node =
        getCachedNextSibling cache node ∧
      getCachedChildren (setCachedPrevSibling cache node v) node =
        getCachedChildren cache node ∧
      ∀ m, m ≠ node → setCachedPrevSibling cache node v m = cache m) ∧
    (getCachedParent (setCachedChildren cache node ch) node =
        getCachedParent cache node ∧
      getCachedNextSibling (setCachedChildren cache node ch) node =
        getCachedNextSibling cache node ∧
      getCachedPrevSibling (setCachedChildren cache node ch) node =
        getCachedPrevSibling cache node ∧
      ∀ m, m ≠ node → setCachedChildren cache node ch m = cache m) := by
  refine ⟨⟨?_, ?_, ?_, ?_⟩, ⟨?_, ?_, ?_, ?_⟩, ⟨?_, ?_, ?_, ?_⟩,
    ⟨?_, ?_, ?_, ?_⟩⟩
  all_goals
    first
    | (intro m hm
       simp [setCachedParent, setCachedNextSibling, setCachedPrevSibling,
         setCachedChildren, hm])
    | (simp only [getCachedParent, getCachedNextSibling, getCachedPrevSibling,
         getCachedChildren, setCachedParent, setCachedNextSibling,
         setCachedPrevSibling, setCachedChildren]
       cases h : cache node <;> simp [h, emptyTraversalEntry])

/-- Witness for C8: a parent write on node `0` leaves node `0`'s sibling
slot and node `1`'s entry unchanged. -/
theorem traversalSetters_frame_witness :
    getCachedNextSibling
        (setCachedParent (fun _ => none) 0 none) 0 =
      getCachedNextSibling (fun _ => none) 0 ∧
    setCachedParent (fun _ => none) 0 none 1 =
      (fun _ => (none : Option TraversalEntry)) 1 :=
  ⟨(traversalSetters_frame (fun _ => none) 0 none []).1.1,
   (traversalSetters_frame (fun _ => none) 0 none []).1.2.2.2 1 (by decide)⟩

theorem hashChildStep_eq_amended (h : Int) (c : DomNode) :
    hashChildStep h c = amendedHashStep h c := by
  cases hc : c.nameCode0 with
  | none => simp [hashChildStep, amendedHashStep, jsOrZero, hc, toInt32]
  | some code =>
    simp only [hashChildStep, amendedHashStep, jsOrZero, hc,
      Option.map_some']
    by_cases hz : h * 31 + (code : Int) = 0
    · rw [if_pos hz, hz]
    · rw [if_neg hz]

/-- C1 counterexample: for a node whose children sequence is the single text
node `text "a"`, the claimed formula folds `d = 0` into the seed `1` and
yields `31`, but the source's `hash * 31 + undefined` is `NaN`, which
`|| 0` collapses to `0`. -/
theorem hashChildren_claim_counterexample :
    hashChildren (some [DomNode.text 0 "a"]) ≠
      claimHashChildren (some [DomNode.text 0 "a"]) := by
  decide

/-- C1 amended: the fingerprint is `0` for an absent or empty children
sequence; otherwise it is a fold over the first `min(count, 10)` children
seeded with the child count, where a child with a nonempty `name` (an
element, or a directive) contributes `hash = toInt32 (hash * 31 + code)`
for its name's first UTF-16 code unit, and any child without a name (or
with an empty name) resets the running hash to `0`; children at positions
beyond the first 10 affect the result only through the child count. -/
theorem hashChildren_amended_correct :
    (∀ children : Option (List DomNode),
      hashChildren children = amendedHashChildren children) ∧
    (∀ cs1 cs2 : List DomNode, cs1.length = cs2.length →
      cs1.take 10 = cs2.take 10 →
      hashChildren (some cs1) = hashChildren (some cs2)) := by
  have hstep : hashChildStep = amendedHashStep :=
    funext fun h => funext fun c => hashChildStep_eq_amended h c
  constructor
  · intro children
    cases children with
    | none => rfl
    | some cs => simp [hashChildren, amendedHashChildren, hstep]
  · intro cs1 cs2 hlen htake
    simp only [hashChildren]
    rw [hlen, htake]

/-- Witness for C1's amended theorem: two 11-child sequences agreeing on
length and on the first 10 children have equal fingerprints. -/
theorem hashChildren_amended_correct_witness :
    hashChildren (some ((List.range 10).map (fun i => DomNode.text i "t") ++
        [DomNode.element 20 "a" [] []])) =
      hashChildren (some ((List.range 10).map (fun i => DomNode.text i "t") ++
        [DomNode.comment 21 "b"])) :=
  hashChildren_amended_correct.2 _ _ (by rfl) (by rfl)

theorem runPoolOps_maxSize {T : Type} (falsy : T → Bool) (factory : Unit → T)
    (ops : List (PoolOp T)) (p : WrapperPool T) :
    (runPoolOps falsy factory ops p).maxSize = p.maxSize := by
  induction ops generalizing p with
  | nil => rfl
  | cons op ops ih =>
    cases op with
    | acquireOp =>
      simp only [runPoolOps, ih]
      cases hp : p.pool with
      | nil => simp [WrapperPool.acquire, hp]
      | cons x rest =>
        by_cases hx : falsy x = true <;>
          simp [WrapperPool.acquire, hp, hx]
    | releaseOp obj =>
      simp only [runPoolOps, ih]
      by_cases hlt : p.pool.length < p.maxSize <;>
        simp [WrapperPool.release, hlt]
    | clearOp => simp [runPoolOps, ih, WrapperPool.clear]

theorem runPoolOps_bound {T : Type} (falsy : T → Bool) (factory : Unit → T)
    (ops : List (PoolOp T)) (p : WrapperPool T)
    (hp : p.pool.length ≤ p.maxSize) :
    (runPoolOps falsy factory ops p).pool.length ≤
      (runPoolOps falsy factory ops p).maxSize := by
  induction ops generalizing p with
  | nil => exact hp
  | cons op ops ih =>
    cases op with
    | acquireOp =>
      refine ih _ ?_
      cases hpl : p.pool with
      | nil => simp [WrapperPool.acquire, hpl]
      | cons x rest =>
        have : rest.length ≤ p.maxSize := by
          have := hp
          rw [hpl] at this
          simp at this
          omega
        by_cases hx : falsy x = true <;>
          simp [WrapperPool.acquire, hpl, hx, this]
    | releaseOp obj =>
      refine ih _ ?_
      by_cases hlt : p.pool.length < p.maxSize <;>
        simp [WrapperPool.release, hlt] <;> omega
    | clearOp =>
      refine ih _ ?_
      simp [WrapperPool.clear]

/-- C3 counterexample: in a pool of JS numbers, releasing the falsy value
`0` and then acquiring invokes the factory even though the pool is
non-empty, because `this.pool.pop() || this.factory()` discards a falsy
popped value. -/
theorem wrapperPool_claim_counterexample :
    ((runPoolOps (fun x : Int => x == 0) (fun _ => (7 : Int))
        [PoolOp.releaseOp 0] (createWrapperPool Int 2)).pool ≠ []) ∧
    (WrapperPool.acquire (fun x : Int => x == 0) (fun _ => (7 : Int))
        (runPoolOps (fun x : Int => x == 0) (fun _ => (7 : Int))
          [PoolOp.releaseOp 0] (createWrapperPool Int 2))).2.2 = true := by
  decide

/-- C3 amended: provided every instance of the element type is truthy (as
wrapper objects are), a pool reached by any operation sequence never holds
more than `maxSize` instances; `release` pushes exactly when strictly below
capacity and drops the instance otherwise; `acquire` pops and returns the
most recently pooled instance without invoking the factory whenever the
pool is non-empty, and invokes the factory exactly when it is empty. -/
theorem wrapperPool_amended {T : Type} (falsy : T → Bool)
    (factory : Unit → T) (hfalsy : ∀ t, falsy t = false) (maxSize : Nat) :
    (∀ ops : List (PoolOp T),
      (runPoolOps falsy factory ops
        (createWrapperPool T maxSize)).pool.length ≤ maxSize) ∧
    (∀ (p : WrapperPool T) (obj : T),
      (p.pool.length < p.maxSize →
        (p.release obj).pool = obj :: p.pool) ∧
      (¬ p.pool.length < p.maxSize → (p.release obj).pool = p.pool)) ∧
    (∀ (p : WrapperPool T) (x : T) (rest : List T), p.pool = x :: rest →
      WrapperPool.acquire falsy factory p = (x, ⟨rest, p.maxSize⟩, false)) ∧
    (∀ p : WrapperPool T, p.pool = [] →
      WrapperPool.acquire falsy factory p = (factory (), p, true)) := by
  refine ⟨?_, ?_, ?_, ?_⟩
  · intro ops
    have h := runPoolOps_bound falsy factory ops (createWrapperPool T maxSize)
      (by simp [createWrapperPool])
    have hm := runPoolOps_maxSize falsy factory ops (createWrapperPool T maxSize)
    rw [hm] at h
    exact h
  · intro p obj
    constructor
    · intro hlt
      simp [WrapperPool.release, hlt]
    · intro hlt
      simp [WrapperPool.release, hlt]
  · intro p x rest hp
    simp [WrapperPool.acquire, hp, hfalsy x]
  · intro p hp
    simp [WrapperPool.acquire, hp]

/-- Witness for C3's amended theorem at the spec's example: `maxSize = 2`,
three releases in a row retain two instances, and an acquire on a non-empty
pool pops without invoking the factory. -/
theorem wrapperPool_amended_witness :
    (runPoolOps (fun _ : Unit => false) (fun _ => ())
        [PoolOp.releaseOp (), PoolOp.releaseOp (), PoolOp.releaseOp ()]
        (createWrapperPool Unit 2)).pool.length ≤ 2 ∧
    WrapperPool.acquire (fun _ : Unit => false) (fun _ => ())
        ⟨[(), ()], 2⟩ = ((), ⟨[()], 2⟩, false) :=
  ⟨(wrapperPool_amended (fun _ : Unit => false) (fun _ => ())
      (fun _ => rfl) 2).1 _,
   (wrapperPool_amended (fun _ : Unit => false) (fun _ => ())
      (fun _ => rfl) 2).2.2.1 ⟨[(), ()], 2⟩ () [()] rfl⟩

theorem matchesIdPattern_iff (l : List Char) :
    matchesIdPattern l = true ↔
      l.head? = some '#' ∧ l.tail ≠ [] ∧ ∀ c ∈ l.tail, isSelectorChar c := by
  cases l with
  | nil => simp [matchesIdPattern]
  | cons c rest =>
    simp [matchesIdPattern, List.all_eq_true, and_assoc]

theorem matchesClassPattern_iff (l : List Char) :
    matchesClassPattern l = true ↔
      l.head? = some '.' ∧ l.tail ≠ [] ∧ ∀ c ∈ l.tail, isSelectorChar c := by
  cases l with
  | nil => simp [matchesClassPattern]
  | cons c rest =>
    simp [matchesClassPattern, List.all_eq_true, and_assoc]

theorem matchesTagPattern_iff (l : List Char) :
    matchesTagPattern l = true ↔ l ≠ [] ∧ ∀ c ∈ l, isSelectorChar c := by
  simp [matchesTagPattern, List.all_eq_true]

/-- C6: `parseSimpleSelector` classifies the trimmed selector by the first
applicable rule in priority order — `#` then word/hyphen characters gives
`id` with the part after `#`; `.` then word/hyphen characters gives `class`
with the part after `.`; word/hyphen characters only gives `tag` with the
trimmed selector; anything else gives `complex` with no value. -/
theorem parseSimpleSelector_matches_claim (s : String) :
    parseSimpleSelector s = claimClassify s := by
  simp only [parseSimpleSelector, claimClassify]
  by_cases h1 : (jsTrim s).data.head? = some '#' ∧
      (jsTrim s).data.tail ≠ [] ∧ ∀ c ∈ (jsTrim s).data.tail, isSelectorChar c
  · rw [if_pos ((matchesIdPattern_iff _).mpr h1), if_pos h1]
  · rw [if_neg (fun hb => h1 ((matchesIdPattern_iff _).mp hb)), if_neg h1]
    by_cases h2 : (jsTrim s).data.head? = some '.' ∧
        (jsTrim s).data.tail ≠ [] ∧
        ∀ c ∈ (jsTrim s).data.tail, isSelectorChar c
    · rw [if_pos ((matchesClassPattern_iff _).mpr h2), if_pos h2]
    · rw [if_neg (fun hb => h2 ((matchesClassPattern_iff _).mp hb)),
        if_neg h2]
      by_cases h3 : (jsTrim s).data ≠ [] ∧
          ∀ c ∈ (jsTrim s).data, isSelectorChar c
      · rw [if_pos ((matchesTagPattern_iff _).mpr h3), if_pos h3]
      · rw [if_neg (fun hb => h3 ((matchesTagPattern_iff _).mp hb)),
          if_neg h3]

/-- The tree-order-first tag-type element in the walk whose `id` attribute
equals the target. -/
def firstIdMatch (idv : String) (nodes : List DomNode) : Option DomNode :=
  (preorderTags nodes).find? (fun n => n.idAttr == some idv)

/-- The search outcome record built from an optional first match. -/
def idResult (o : Option DomNode) : FindState × Bool :=
  (⟨o.toList, (o.map DomNode.nid).toList⟩, o.isSome)

mutual

theorem findByIdNode_spec (idv : String) (n : DomNode) :
    findByIdNode idv n ⟨[], []⟩ =
      idResult ((preorderTagsNode n).find?
        (fun m => m.idAttr == some idv)) := by
  cases n with
  | element nid nm ats ch =>
    by_cases hp : (ats.lookup "id" == some idv) = true
    · simp [findByIdNode, preorderTagsNode, hp, DomNode.idAttr, DomNode.nid,
        idResult, List.find?_cons_of_pos]
    · have hpb : (ats.lookup "id" == some idv) = false := by simpa using hp
      have h1 := findByIdGo_spec idv ch
      have h2 : (preorderTagsNode (DomNode.element nid nm ats ch)).find?
          (fun m => m.idAttr == some idv) =
          (preorderTags ch).find? (fun m => m.idAttr == some idv) := by
        simp only [preorderTagsNode]
        exact List.find?_cons_of_neg _ (by simp [DomNode.idAttr, hpb])
      simp [findByIdNode, hpb, h1, h2, firstIdMatch]
  | text a b => simp [findByIdNode, preorderTagsNode, idResult]
  | comment a b => simp [findByIdNode, preorderTagsNode, idResult]
  | directive a b c => simp [findByIdNode, preorderTagsNode, idResult]
  | cdata a b => simp [findByIdNode, preorderTagsNode, idResult]

theorem findByIdGo_spec (idv : String) (nodes : List DomNode) :
    findByIdGo idv nodes ⟨[], []⟩ = idResult (firstIdMatch idv nodes) := by
  cases nodes with
  | nil => simp [findByIdGo, firstIdMatch, preorderTags, idResult]
  | cons n rest =>
    have h1 := findByIdNode_spec idv n
    have h2 := findByIdGo_spec idv rest
    have hsplit : firstIdMatch idv (n :: rest) =
        ((preorderTagsNode n).find? (fun m => m.idAttr == some idv)).or
          (firstIdMatch idv rest) := by
      simp [firstIdMatch, preorderTags, List.find?_append]
    cases hf : (preorderTagsNode n).find?
        (fun m => m.idAttr == some idv) with
    | some m =>
      rw [hf] at h1
      simp [findByIdGo, h1, hsplit, hf, idResult, Option.or]
    | none =>
      rw [hf] at h1
      simp [findByIdGo, h1, h2, hsplit, hf, idResult, Option.or]

end
/-- C4: `fastFindById` returns at most one element; it returns exactly the
tree-order-first element of the pre-order walk (which visits only tag-type
nodes and recurses only into their children) whose `id` attribute equals the
target, or the empty list when there is none — even when several reachable
elements share that id. -/
theorem fastFindById_spec (root : List DomNode) (idv : String) :
    fastFindById root idv = (firstIdMatch idv root).toList ∧
    (fastFindById root idv).length ≤ 1 := by
  have h := findByIdGo_spec idv root
  constructor
  · unfold fastFindById
    rw [h]
    simp [idResult]
  · unfold fastFindById
    rw [h]
    cases hf : firstIdMatch idv root <;> simp [hf, idResult]

/-- The pre-order walk's tag-type elements whose class list contains the
target class. -/
def matchingTags (cls : String) (nodes : List DomNode) : List DomNode :=
  (preorderTags nodes).filter (fun n => n.classList.contains cls)

theorem pushNids_append (a b : List DomNode) (seen : List Nat) :
    pushNids (a ++ b) seen = pushNids b (pushNids a seen) := by
  simp [pushNids, List.foldl_append]

theorem dedupNew_append (a b : List DomNode) (seen : List Nat) :
    dedupNew seen (a ++ b) =
      dedupNew seen a ++ dedupNew (pushNids (dedupNew seen a) seen) b := by
  induction a generalizing seen with
  | nil => simp [dedupNew, pushNids]
  | cons n a ih =>
    by_cases h : n.nid ∈ seen
    · simp [dedupNew, h, ih]
    · simp [dedupNew, h, ih, pushNids]

mutual

theorem findByClassNode_spec (cls : String) (n : DomNode) (st : FindState) :
    findByClassNode cls n st =
      ⟨st.results ++ dedupNew st.seen
          ((preorderTagsNode n).filter (fun m => m.classList.contains cls)),
        pushNids (dedupNew st.seen
            ((preorderTagsNode n).filter (fun m => m.classList.contains cls)))
          st.seen⟩ := by
  cases n with
  | element nid nm ats ch =>
    by_cases hp : cls ∈ classAttrList ats
    · have hMN : (preorderTagsNode
          (DomNode.element nid nm ats ch)).filter
            (fun m => m.classList.contains cls) =
          DomNode.element nid nm ats ch ::
            (preorderTags ch).filter (fun m => m.classList.contains cls) := by
        simp [preorderTagsNode, List.filter_cons, DomNode.classList, hp]
      by_cases hs : nid ∈ st.seen
      · rw [show findByClassNode cls (DomNode.element nid nm ats ch) st =
            findByClassGo cls ch st from by simp [findByClassNode, hp, hs]]
        rw [findByClassGo_spec cls ch st, hMN]
        rw [show dedupNew st.seen (DomNode.element nid nm ats ch ::
            (preorderTags ch).filter (fun m => m.classList.contains cls)) =
            dedupNew st.seen
              ((preorderTags ch).filter (fun m => m.classList.contains cls))
          from by simp [dedupNew, DomNode.nid, hs]]
        simp [matchingTags]
      · rw [show findByClassNode cls (DomNode.element nid nm ats ch) st =
            findByClassGo cls ch
              ⟨st.results ++ [DomNode.element nid nm ats ch],
               nid :: st.seen⟩ from by simp [findByClassNode, hp, hs]]
        rw [findByClassGo_spec cls ch
          ⟨st.results ++ [DomNode.element nid nm ats ch], nid :: st.seen⟩,
          hMN]
        rw [show dedupNew st.seen (DomNode.element nid nm ats ch ::
            (preorderTags ch).filter (fun m => m.classList.contains cls)) =
            DomNode.element nid nm ats ch :: dedupNew (nid :: st.seen)
              ((preorderTags ch).filter (fun m => m.classList.contains cls))
          from by simp [dedupNew, DomNode.nid, hs]]
        simp [pushNids, List.append_assoc, matchingTags, DomNode.nid]
    · have hMN : (preorderTagsNode
          (DomNode.element nid nm ats ch)).filter
            (fun m => m.classList.contains cls) =
          (preorderTags ch).filter (fun m => m.classList.contains cls) := by
        simp [preorderTagsNode, List.filter_cons, DomNode.classList, hp]
      rw [show findByClassNode cls (DomNode.element nid nm ats ch) st =
          findByClassGo cls ch st from by simp [findByClassNode, hp]]
      rw [findByClassGo_spec cls ch st, hMN]
      simp [matchingTags]
  | text a b => simp [findByClassNode, preorderTagsNode, dedupNew, pushNids]
  | comment a b =>
    simp [findByClassNode, preorderTagsNode, dedupNew, pushNids]
  | directive a b c =>
    simp [findByClassNode, preorderTagsNode, dedupNew, pushNids]
  | cdata a b => simp [findByClassNode, preorderTagsNode, dedupNew, pushNids]

theorem findByClassGo_spec (cls : String) (nodes : List DomNode)
    (st : FindState) :
    findByClassGo cls nodes st =
      ⟨st.results ++ dedupNew st.seen (matchingTags cls nodes),
       pushNids (dedupNew st.seen (matchingTags cls nodes)) st.seen⟩ := by
  cases nodes with
  | nil =>
    simp [findByClassGo, matchingTags, preorderTags, dedupNew, pushNids]
  | cons n rest =>
    have h1 := findByClassNode_spec cls n st
    have hsplit : matchingTags cls (n :: rest) =
        (preorderTagsNode n).filter (fun m => m.classList.contains cls) ++
          matchingTags cls rest := by
      simp [matchingTags, preorderTags, List.filter_append]
    have h2 := findByClassGo_spec cls rest
      ⟨st.results ++ dedupNew st.seen
          ((preorderTagsNode n).filter (fun m => m.classList.contains cls)),
       pushNids (dedupNew st.seen
           ((preorderTagsNode n).filter (fun m => m.classList.contains cls)))
         st.seen⟩
    rw [show findByClassGo cls (n :: rest) st =
        findByClassGo cls rest (findByClassNode cls n st) from by
      simp [findByClassGo]]
    rw [h1, h2, hsplit]
    simp only [dedupNew_append]
    simp [pushNids_append, List.append_assoc]

end

theorem dedupNew_eq_self (l : List DomNode) (seen : List Nat)
    (hn : (l.map DomNode.nid).Nodup) (hd : ∀ x ∈ l, x.nid ∉ seen) :
    dedupNew seen l = l := by
  induction l generalizing seen with
  | nil => rfl
  | cons n l ih =>
    have h1 : n.nid ∉ seen := hd n (List.mem_cons_self n l)
    rw [List.map_cons, List.nodup_cons] at hn
    have h2 : dedupNew (n.nid :: seen) l = l := by
      refine ih (n.nid :: seen) hn.2 (fun x hx => ?_)
      simp only [List.mem_cons]
      rintro (hxe | hxs)
      · exact hn.1 (by rw [← hxe]; exact List.mem_map_of_mem DomNode.nid hx)
      · exact hd x (List.mem_cons_of_mem _ hx) hxs
    simp [dedupNew, h1, h2]

/-- C5: on a well-formed tree (pairwise-distinct node identities in the
walk), `fastFindByClass` returns exactly the tag-type elements of the
pre-order walk whose `class` attribute, split on runs of whitespace,
contains the target class — in document order — and the result has no
duplicates; an element with an absent class attribute has an empty class
list and is never returned. -/
theorem fastFindByClass_spec (root : List DomNode) (cls : String)
    (h : ((preorderTags root).map DomNode.nid).Nodup) :
    fastFindByClass root cls = matchingTags cls root ∧
    ((fastFindByClass root cls).map DomNode.nid).Nodup := by
  have hsub : ((matchingTags cls root).map DomNode.nid).Nodup :=
    h.sublist ((List.filter_sublist _).map DomNode.nid)
  have hgo := findByClassGo_spec cls root ⟨[], []⟩
  have hres : fastFindByClass root cls = matchingTags cls root := by
    unfold fastFindByClass
    rw [hgo]
    simp only [FindState.results]
    rw [List.nil_append]
    exact dedupNew_eq_self _ _ hsub (fun x _ => List.not_mem_nil _)
  exact ⟨hres, hres ▸ hsub⟩

/-- Witness for C5 at the spec's example: classes `"item featured"`,
`"item"`, `"other"` — searching `"item"` returns the first two elements in
document order. -/
theorem fastFindByClass_spec_witness :
    fastFindByClass
        [DomNode.element 1 "a" [("class", "item featured")] [],
         DomNode.element 2 "b" [("class", "item")] [],
         DomNode.element 3 "c" [("class", "other")] []] "item" =
      [DomNode.element 1 "a" [("class", "item featured")] [],
       DomNode.element 2 "b" [("class", "item")] []] := by
  rw [(fastFindByClass_spec
    [DomNode.element 1 "a" [("class", "item featured")] [],
     DomNode.element 2 "b" [("class", "item")] [],
     DomNode.element 3 "c" [("class", "other")] []] "item" (by decide)).1]
  rfl

theorem empty_mem_splitWsAux_trailing (w : Char)
    (hw : isJsWhitespace w = true) (l : List Char) :
    (∀ cur : List Char, "" ∈ splitWsAux false (l ++ [w]) cur) ∧
    "" ∈ splitWsAux true (l ++ [w]) [] := by
  induction l with
  | nil =>
    constructor
    · intro cur
      simp [splitWsAux, hw]
    · simp [splitWsAux, hw]
  | cons c l ih =>
    by_cases hc : isJsWhitespace c = true
    · constructor
      · intro cur
        rw [List.cons_append,
          show splitWsAux false (c :: (l ++ [w])) cur =
            String.mk cur.reverse :: splitWsAux true (l ++ [w]) [] from by
          simp [splitWsAux, hc]]
        exact List.mem_cons_of_mem _ ih.2
      · rw [List.cons_append,
          show splitWsAux true (c :: (l ++ [w])) [] =
            splitWsAux true (l ++ [w]) [] from by simp [splitWsAux, hc]]
        exact ih.2
    · constructor
      · intro cur
        rw [List.cons_append,
          show splitWsAux false (c :: (l ++ [w])) cur =
            splitWsAux false (l ++ [w]) (c :: cur) from by
          simp [splitWsAux, hc]]
        exact ih.1 (c :: cur)
      · rw [List.cons_append,
          show splitWsAux true (c :: (l ++ [w])) [] =
            splitWsAux false (l ++ [w]) [c] from by simp [splitWsAux, hc]]
        exact ih.1 [c]

theorem empty_mem_splitWs_leading (c : Char) (cs : List Char)
    (hc : isJsWhitespace c = true) (s : String) (hs : s.data = c :: cs) :
    "" ∈ splitWs s := by
  rw [splitWs, hs,
    show splitWsAux false (c :: cs) [] =
      String.mk [] :: splitWsAux true cs [] from by simp [splitWsAux, hc]]
  exact List.mem_cons_self _ _

/-- C10: an element reachable by the walk whose `class` attribute value
begins or ends with a whitespace character is returned by
`fastFindByClass(root, "")`: splitting such a value on `/\s+/` yields an
empty-string token, so the empty class name matches it (while an element
with an absent class attribute is not matched). -/
theorem fastFindByClass_empty_class (root : List DomNode) (nid : Nat)
    (nm : String) (ats : List (String × String)) (ch : List DomNode)
    (s : String)
    (hnodup : ((preorderTags root).map DomNode.nid).Nodup)
    (hmem : DomNode.element nid nm ats ch ∈ preorderTags root)
    (hcls : ats.lookup "class" = some s)
    (hws : (s.data.head?.any isJsWhitespace ||
            s.data.getLast?.any isJsWhitespace) = true) :
    DomNode.element nid nm ats ch ∈ fastFindByClass root "" := by
  have hempty : "" ∈ splitWs s := by
    rw [Bool.or_eq_true] at hws
    cases hws with
    | inl h1 =>
      cases hd : s.data with
      | nil => rw [hd] at h1; simp at h1
      | cons c cs =>
        rw [hd] at h1
        simp only [List.head?_cons, Option.any_some] at h1
        exact empty_mem_splitWs_leading c cs h1 s hd
    | inr h2 =>
      cases hg : s.data.getLast? with
      | none => rw [hg] at h2; simp at h2
      | some w =>
        rw [hg] at h2
        simp only [Option.any_some] at h2
        obtain ⟨l2, hl2⟩ := List.getLast?_eq_some_iff.mp hg
        have hm := (empty_mem_splitWsAux_trailing w h2 l2).1 []
        rw [← hl2] at hm
        simpa [splitWs] using hm
  rw [(fastFindByClass_spec root "" hnodup).1]
  refine List.mem_filter.mpr ⟨hmem, ?_⟩
  simp [DomNode.classList, classAttrList, hcls, hempty]

/-- Witness for C10: a single element with `class=" x"` is returned by a
search for the empty class name. -/
theorem fastFindByClass_empty_class_witness :
    DomNode.element 5 "p" [("class", " x")] [] ∈
      fastFindByClass [DomNode.element 5 "p" [("class", " x")] []] "" :=
  fastFindByClass_empty_class
    [DomNode.element 5 "p" [("class", " x")] []] 5 "p" [("class", " x")] []
    " x" (by decide) (by simp [preorderTags, preorderTagsNode]) rfl
    (by decide)

end CheerioOpt
